import Mathlib

/-
Verification of the isochro fixed-dimension vector/matrix library.

The Rust type `Vec<const DIM: usize, T>(pub [T; DIM])` (src/vector.rs) is
embedded as a list together with a proof that its length is the dimension.
Borrowed operands (`&T`, `&U`) carry no semantic content in a pure setting,
so the `_ref` combinator variants act on the same values; their bodies are
transcribed from the corresponding Rust bodies.  The unchecked iterator
pulls (`unwrap_unchecked`) in the source are modelled with `Option`
where the loop shape makes exhaustion possible (`combine_assign`, `dot`);
where `std::array::from_fn` pulls exactly `D` elements from a zipped
iterator whose length is provably `D`, the definition carries that length
proof directly.
-/

namespace Isochro

variable {D R C : Nat} {T U V W : Type}

/-- Embeds `pub struct Vec<const DIM: usize, T>(pub [T; DIM])` from
src/vector.rs: exactly `D` elements of `T` in order. -/
structure Vec (D : Nat) (T : Type) where
  data : List T
  hlen : data.length = D

/-- Embeds `impl Index<usize> for Vec` (src/vector.rs): `&self.0[index]`,
which panics out of bounds; the panic is modelled as `none`. -/
def Vec.index (v : Vec D T) (i : Nat) : Option T :=
  v.data[i]?

/-- Total element access at a type-bounded index (used to state theorems
about in-bounds cells). -/
def Vec.get (v : Vec D T) (i : Fin D) : T :=
  v.data.get (Fin.cast v.hlen.symm i)

/-- Embeds `From<[T; D]> for Vec<D, T>` (src/vector.rs): `Self(x)`.
The Rust array `[T; D]` is the subtype of lists of length `D`. -/
def Vec.fromArray (x : { l : List T // l.length = D }) : Vec D T :=
  ⟨x.val, x.property⟩

/-- Embeds `From<Vec<D, T>> for [T; D]` (src/vector.rs): `x.0`. -/
def Vec.toArray (v : Vec D T) : { l : List T // l.length = D } :=
  ⟨v.data, v.hlen⟩

/-- Embeds `Vec::combine` (src/vector.rs): zip the two element sequences,
map the combining function over the pairs, and fill an array of `D`
elements from the resulting iterator (`std::array::from_fn` with
`iter.next().unwrap_unchecked()`); the iterator provably holds exactly
`D` elements, which is the carried length proof. -/
def Vec.combine (a : Vec D T) (b : Vec D U) (f : T → U → V) : Vec D V :=
  ⟨(a.data.zip b.data).map (fun p => f p.1 p.2), by
    simp [List.length_zip, a.hlen, b.hlen]⟩

/-- Embeds `Vec::combine_ref` (src/vector.rs): same body as `combine`
except the second operand is traversed by shared reference
(`other.0.iter()`), which is value-identical in a pure setting. -/
def Vec.combine_ref (a : Vec D T) (b : Vec D U) (f : T → U → V) : Vec D V :=
  ⟨(a.data.zip b.data).map (fun p => f p.1 p.2), by
    simp [List.length_zip, a.hlen, b.hlen]⟩

/-- Embeds `Vec::combine_both_ref` (src/vector.rs): both operands
traversed by shared reference; body otherwise identical to `combine`. -/
def Vec.combine_both_ref (a : Vec D T) (b : Vec D U) (f : T → U → V) : Vec D V :=
  ⟨(a.data.zip b.data).map (fun p => f p.1 p.2), by
    simp [List.length_zip, a.hlen, b.hlen]⟩

/-- Embeds `Vec::combine_scalar` (src/vector.rs):
`Vec(self.0.map(|a| f(a, other.clone())))`. -/
def Vec.combine_scalar (a : Vec D T) (other : U) (f : T → U → V) : Vec D V :=
  ⟨a.data.map (fun x => f x other), by simp [a.hlen]⟩

/-- The loop of `Vec::combine_assign` (src/vector.rs) on raw lists:
`for a in self.0.iter_mut() { f(a, b.next().unwrap_unchecked()) }`.
Each element of `self` is replaced by the effect of `f` on it and the
next element pulled from `other`; pulling past exhaustion is undefined
behaviour in the source and is modelled as `none`. -/
def combineAssignLoop (f : T → U → T) : List T → List U → Option (List T)
  | [], _ => some []
  | _ :: _, [] => none
  | a :: as, b :: bs =>
    match combineAssignLoop f as bs with
    | none => none
    | some r => some (f a b :: r)

/-- Embeds `Vec::combine_assign` (src/vector.rs): the final contents of
the mutated receiver (`none` models the unchecked pull past exhaustion,
ruled out by the shared dimension). -/
def Vec.combine_assign (a : Vec D T) (b : Vec D U) (f : T → U → T) :
    Option (List T) :=
  combineAssignLoop f a.data b.data

/-- Embeds `impl Add<Vec<D, U>> for Vec<D, T>` (src/vector.rs):
`self.combine(rhs, T::add)`, with the element addition `f` passed
explicitly in place of the `Add` trait instance. -/
def Vec.add (a : Vec D T) (b : Vec D U) (f : T → U → V) : Vec D V :=
  a.combine b f

/-- Embeds `impl Add<&Vec<D, U>> for Vec<D, T>` (src/vector.rs):
`self.combine_ref(rhs, |a, b| a + b)`. -/
def Vec.addValRef (a : Vec D T) (b : Vec D U) (f : T → U → V) : Vec D V :=
  a.combine_ref b (fun x y => f x y)

/-- Embeds `impl Add<Vec<D, U>> for &Vec<D, T>` (src/vector.rs):
`rhs.combine_ref(self, |a, b| b + a)` — the operands are swapped because
the source has only one `combine_ref`, and the combining closure swaps
them back. -/
def Vec.addRefVal (a : Vec D T) (b : Vec D U) (f : T → U → V) : Vec D V :=
  b.combine_ref a (fun x y => f y x)

/-- Embeds `impl Add<&Vec<D, U>> for &Vec<D, T>` (src/vector.rs):
`self.combine_both_ref(rhs, |a, b| a + b)`. -/
def Vec.addRefRef (a : Vec D T) (b : Vec D U) (f : T → U → V) : Vec D V :=
  a.combine_both_ref b (fun x y => f x y)

/-- Embeds `impl AddAssign<Vec<D, U>> for Vec<D, T>` (src/vector.rs):
`self.combine_assign(rhs, |a, b| a.add_assign(b))`, with the element
`add_assign` modelled as the pure update function `g`. -/
def Vec.addAssign (a : Vec D T) (b : Vec D U) (g : T → U → T) :
    Option (List T) :=
  a.combine_assign b g

/-- Embeds `impl Mul<U> for Vec<D, T>` (src/vector.rs):
`self.combine_scalar(rhs, T::mul)`. -/
def Vec.mulScalar (a : Vec D T) (k : U) (mul : T → U → V) : Vec D V :=
  a.combine_scalar k mul

/-- Embeds `impl Div<U> for Vec<D, T>` (src/vector.rs):
`self.combine_scalar(rhs, T::div)`. -/
def Vec.divScalar (a : Vec D T) (k : U) (dv : T → U → V) : Vec D V :=
  a.combine_scalar k dv

/-- The `Iterator::reduce(|acc, x| acc + x)` step of the dot product
(src/vector.rs): `none` on the empty iterator (whose
`unwrap_unchecked` is undefined behaviour in the source), otherwise a
left fold with the first element as the initial accumulator. -/
def reduceAdd (add : V → V → V) : List V → Option V
  | [] => none
  | x :: xs => some (xs.foldl add x)

/-- Embeds `DotProduct::dot for Vec` (src/vector.rs):
`zip(self.0, rhs.0).map(|(a, b)| a * b).reduce(|acc, x| acc + x)`,
with the element multiplication and addition passed explicitly. -/
def Vec.dot (a : Vec D T) (b : Vec D U) (mul : T → U → V)
    (add : V → V → V) : Option V :=
  reduceAdd add ((a.data.zip b.data).map (fun p => mul p.1 p.2))

/-- Embeds `Window2<T>` (src/vector/vec2.rs): the `repr(C)` named-field
view over a 2-dimensional vector's storage. -/
structure Window2 (T : Type) where
  x : T
  y : T

/-- Embeds `Window3<T>` (src/vector/vec3.rs). -/
structure Window3 (T : Type) where
  x : T
  y : T
  z : T

/-- Embeds `Window4<T>` (src/vector/vec4.rs). -/
structure Window4 (T : Type) where
  x : T
  y : T
  z : T
  w : T

/-- The `repr(C)` union reinterpretation of a 2-vector's storage as a
`Window2` (the `Transform2` union cast in src/vector/vec2.rs): field `x`
overlays array slot 0 and field `y` slot 1. -/
def Window2.ofVec (v : Vec 2 T) : Window2 T :=
  ⟨v.get 0, v.get 1⟩

/-- The `Transform3` union cast of src/vector/vec3.rs: fields x, y, z
overlay array slots 0, 1, 2. -/
def Window3.ofVec (v : Vec 3 T) : Window3 T :=
  ⟨v.get 0, v.get 1, v.get 2⟩

/-- The `Transform4` union cast of src/vector/vec4.rs: fields x, y, z, w
overlay array slots 0, 1, 2, 3. -/
def Window4.ofVec (v : Vec 4 T) : Window4 T :=
  ⟨v.get 0, v.get 1, v.get 2, v.get 3⟩

/-- Embeds `impl Deref for Vec2` (src/vector/vec2.rs): it first runs
`assert_eq!(size_of::<Vec2<T>>(), size_of::<Window2<T>>())` and only then
performs the union cast.  The two byte sizes are outside a shallow
embedding, so they are taken as parameters; the failed assertion (an
abort) is `none`. -/
def vec2Deref (szVec szWin : Nat) (v : Vec 2 T) : Option (Window2 T) :=
  if szVec = szWin then some (Window2.ofVec v) else none

/-- Embeds `impl DerefMut for Vec2` (src/vector/vec2.rs): same size
assertion before the mutable union cast. -/
def vec2DerefMut (szVec szWin : Nat) (v : Vec 2 T) : Option (Window2 T) :=
  if szVec = szWin then some (Window2.ofVec v) else none

/-- Embeds `impl Deref for Vec3` (src/vector/vec3.rs): the source performs
the union cast unconditionally — no size assertion is present, so the
size parameters are never consulted. -/
def vec3Deref (_szVec _szWin : Nat) (v : Vec 3 T) : Option (Window3 T) :=
  some (Window3.ofVec v)

/-- Embeds `impl DerefMut for Vec3` (src/vector/vec3.rs): no size
assertion in the source. -/
def vec3DerefMut (_szVec _szWin : Nat) (v : Vec 3 T) : Option (Window3 T) :=
  some (Window3.ofVec v)

/-- Embeds `impl Deref for Vec4` (src/vector/vec4.rs): the source performs
the union cast unconditionally — no size assertion is present. -/
def vec4Deref (_szVec _szWin : Nat) (v : Vec 4 T) : Option (Window4 T) :=
  some (Window4.ofVec v)

/-- Embeds `impl DerefMut for Vec4` (src/vector/vec4.rs): no size
assertion in the source. -/
def vec4DerefMut (_szVec _szWin : Nat) (v : Vec 4 T) : Option (Window4 T) :=
  some (Window4.ofVec v)

/-- Embeds `pub struct Mat<const ROW: usize, const COL: usize, T>
(pub [Vec<COL, T>; ROW])` from src/matrix.rs. -/
structure Mat (R C : Nat) (T : Type) where
  rows : List (Vec C T)
  hlen : rows.length = R

/-- Embeds `impl Add<Mat<M, N, U>> for Mat<M, N, T>` (src/matrix.rs):
zip the row arrays, map row-vector addition (`a + b` on `Vec<N, _>`) over
the pairs, and fill the result array from the iterator; the element
addition `f` of the row vectors is passed explicitly. -/
def Mat.add (A : Mat R C T) (B : Mat R C U) (f : T → U → V) : Mat R C V :=
  ⟨(A.rows.zip B.rows).map (fun p => Vec.add p.1 p.2 f), by
    simp [List.length_zip, A.hlen, B.hlen]⟩

/-- Embeds `impl Index<(usize, usize)> for Mat` (src/matrix.rs):
`&self.0[index.0][index.1]`; either out-of-bounds panic is `none`. -/
def Mat.index2 (A : Mat R C T) (i j : Nat) : Option T :=
  (A.rows[i]?).bind (fun row => row.index j)

/-- Total element access of a matrix at type-bounded indices. -/
def Mat.get (A : Mat R C T) (i : Fin R) (j : Fin C) : T :=
  (A.rows.get (Fin.cast A.hlen.symm i)).get j

/-- The spec's product list for the dot product: the element products
`a[i] * b[i]` listed in ascending index order `i = 0 .. D-1`. -/
def dotProducts (a : Vec D T) (b : Vec D U) (mul : T → U → V) : List V :=
  List.ofFn (fun i : Fin D => mul (a.get i) (b.get i))

/-- Modelled from the spec: the reduction of the dot product, "computed
as a left-to-right fold: multiply each pair first, then reduce by
addition strictly in ascending index order" — the first product is the
initial accumulator and the rest are added by a left fold; undefined for
the empty list (dimension 0 is an explicit spec non-goal). -/
def foldAscending (add : V → V → V) : List V → Option V
  | [] => none
  | x :: xs => some (xs.foldl add x)

/-- Two vectors with equal element lists are equal. -/
theorem Vec.eq_of_data_eq {a b : Vec D T} (h : a.data = b.data) : a = b := by
  cases a
  cases b
  cases h
  rfl

/-- Zipping in the swapped order and re-swapping in the combining function
gives the same list, provided the lengths agree. -/
theorem zip_map_flip (f : T → U → V) :
    ∀ (l1 : List T) (l2 : List U), l1.length = l2.length →
      (l2.zip l1).map (fun p => f p.2 p.1) = (l1.zip l2).map (fun p => f p.1 p.2) := by
  intro l1
  induction l1 with
  | nil =>
    intro l2 h
    cases l2 with
    | nil => rfl
    | cons b bs => simp at h
  | cons a as ih =>
    intro l2 h
    cases l2 with
    | nil => simp at h
    | cons b bs =>
      simp only [List.length_cons] at h
      simp [ih bs (by omega)]

/-- Element of a mapped zip at an in-bounds index. -/
theorem zipMap_getElem (g : T × U → V) (l1 : List T) (l2 : List U) (i : Nat)
    (h1 : i < l1.length) (h2 : i < l2.length)
    (h : i < ((l1.zip l2).map g).length) :
    ((l1.zip l2).map g)[i] = g (l1[i], l2[i]) := by
  rw [List.getElem_map, List.getElem_zip]

/-- `Vec.get` is plain positional access into the element list. -/
theorem Vec.get_eq_getElem (v : Vec D T) (i : Fin D)
    (h : i.val < v.data.length) :
    v.get i = v.data[i.val] := rfl

/-- The fallible index operator agrees with `Vec.get` in bounds. -/
theorem Vec.index_eq_get (v : Vec D T) (i : Fin D) :
    v.index i.val = some (v.get i) := by
  have h : i.val < v.data.length := by rw [v.hlen]; exact i.isLt
  show v.data[i.val]? = some (v.get i)
  rw [List.getElem?_eq_getElem h, Vec.get_eq_getElem v i h]

/-- Pointwise description of `Vec.combine`. -/
theorem Vec.combine_get (a : Vec D T) (b : Vec D U) (f : T → U → V)
    (i : Fin D) : (a.combine b f).get i = f (a.get i) (b.get i) := by
  have h1 : i.val < a.data.length := by rw [a.hlen]; exact i.isLt
  have h2 : i.val < b.data.length := by rw [b.hlen]; exact i.isLt
  have h : i.val < ((a.data.zip b.data).map (fun p => f p.1 p.2)).length := by
    rw [List.length_map, List.length_zip, a.hlen, b.hlen]
    simp
  rw [Vec.get_eq_getElem (a.combine b f) i h]
  show ((a.data.zip b.data).map (fun p => f p.1 p.2))[i.val] = _
  rw [zipMap_getElem (fun p => f p.1 p.2) a.data b.data i.val h1 h2 h]
  rw [Vec.get_eq_getElem a i h1, Vec.get_eq_getElem b i h2]

/-- The element list produced by `Vec.combine`, written as an explicit
ascending-index table. -/
theorem Vec.combine_data_eq_ofFn (a : Vec D T) (b : Vec D U) (f : T → U → V) :
    (a.combine b f).data = List.ofFn (fun i : Fin D => f (a.get i) (b.get i)) := by
  apply List.ext_getElem
  · simp [Vec.combine, List.length_zip, a.hlen, b.hlen]
  · intro n ha hb
    have hD : n < D := by simpa using hb
    have h1 : n < a.data.length := by rw [a.hlen]; exact hD
    have h2 : n < b.data.length := by rw [b.hlen]; exact hD
    show ((a.data.zip b.data).map (fun p => f p.1 p.2))[n] = _
    rw [zipMap_getElem (fun p => f p.1 p.2) a.data b.data n h1 h2 ha]
    simp [List.getElem_ofFn, Vec.get_eq_getElem a ⟨n, hD⟩ h1,
      Vec.get_eq_getElem b ⟨n, hD⟩ h2]

/-- The in-place loop computes the mapped zip whenever the two element
lists have equal length (which the shared dimension guarantees). -/
theorem combineAssignLoop_eq_zipMap (f : T → U → T) :
    ∀ (l1 : List T) (l2 : List U), l1.length = l2.length →
      combineAssignLoop f l1 l2 = some ((l1.zip l2).map (fun p => f p.1 p.2)) := by
  intro l1
  induction l1 with
  | nil =>
    intro l2 h
    cases l2 with
    | nil => rfl
    | cons b bs => simp at h
  | cons a as ih =>
    intro l2 h
    cases l2 with
    | nil => simp at h
    | cons b bs =>
      simp only [List.length_cons] at h
      simp [combineAssignLoop, ih bs (by omega)]

/-- The source's `reduce` step and the spec's ascending fold coincide. -/
theorem reduceAdd_eq_foldAscending (add : V → V → V) (l : List V) :
    reduceAdd add l = foldAscending add l := by
  cases l <;> rfl

/-- The dot product reduces the spec's ascending product list. -/
theorem dot_eq_fold_products (a : Vec D T) (b : Vec D U) (mul : T → U → V)
    (add : V → V → V) :
    Vec.dot a b mul add = foldAscending add (dotProducts a b mul) := by
  have h : (a.data.zip b.data).map (fun p => mul p.1 p.2) = dotProducts a b mul :=
    Vec.combine_data_eq_ofFn a b mul
  show reduceAdd add ((a.data.zip b.data).map (fun p => mul p.1 p.2)) = _
  rw [h, reduceAdd_eq_foldAscending]

/-- The fallible matrix double index agrees with `Mat.get` in bounds. -/
theorem Mat.index2_eq_get (A : Mat R C T) (i : Fin R) (j : Fin C) :
    A.index2 i.val j.val = some (A.get i j) := by
  have h : i.val < A.rows.length := by rw [A.hlen]; exact i.isLt
  show (A.rows[i.val]?).bind (fun row => row.index j.val) = some (A.get i j)
  rw [List.getElem?_eq_getElem h]
  show (A.rows[i.val]).index j.val = some (A.get i j)
  rw [Vec.index_eq_get]
  rfl

/-- `Mat.get` is plain positional access into the row list. -/
theorem Mat.get_eq_row_getElem (A : Mat R C T) (i : Fin R) (j : Fin C)
    (h : i.val < A.rows.length) :
    A.get i j = (A.rows[i.val]).get j := rfl

/-- Pointwise description of matrix addition. -/
theorem Mat.add_get (A : Mat R C T) (B : Mat R C U) (f : T → U → V)
    (i : Fin R) (j : Fin C) :
    (Mat.add A B f).get i j = f (A.get i j) (B.get i j) := by
  have hA : i.val < A.rows.length := by rw [A.hlen]; exact i.isLt
  have hB : i.val < B.rows.length := by rw [B.hlen]; exact i.isLt
  have h : i.val < ((A.rows.zip B.rows).map (fun p => Vec.add p.1 p.2 f)).length := by
    rw [List.length_map, List.length_zip, A.hlen, B.hlen]
    simp
  rw [Mat.get_eq_row_getElem (Mat.add A B f) i j h]
  show (((A.rows.zip B.rows).map (fun p => Vec.add p.1 p.2 f))[i.val]).get j = _
  rw [zipMap_getElem (fun p => Vec.add p.1 p.2 f) A.rows B.rows i.val hA hB h]
  show (Vec.add (A.rows[i.val]) (B.rows[i.val]) f).get j = _
  rw [show Vec.add (A.rows[i.val]) (B.rows[i.val]) f
        = (A.rows[i.val]).combine (B.rows[i.val]) f from rfl]
  rw [Vec.combine_get]
  rw [Mat.get_eq_row_getElem A i j hA, Mat.get_eq_row_getElem B i j hB]

/-- C1: for every pair of same-dimension vectors and every element
addition, the four ownership combinations of `+` (both owned; left
owned/right borrowed; left borrowed/right owned; both borrowed) produce
equal results on equal input values. -/
theorem add_ownership_combinations_agree (f : T → U → V) (a : Vec D T)
    (b : Vec D U) :
    Vec.addValRef a b f = Vec.add a b f ∧
      Vec.addRefVal a b f = Vec.add a b f ∧
      Vec.addRefRef a b f = Vec.add a b f := by
  refine ⟨rfl, ?_, rfl⟩
  apply Vec.eq_of_data_eq
  exact zip_map_flip f a.data b.data (by rw [a.hlen, b.hlen])

/-- C1 witness: the four ownership combinations agree at a concrete
pair of 2-dimensional integer vectors. -/
theorem add_ownership_combinations_agree_example :
    Vec.addValRef (⟨[1, 2], rfl⟩ : Vec 2 Int) ⟨[3, 4], rfl⟩ (fun x y => x + y) =
        Vec.add ⟨[1, 2], rfl⟩ ⟨[3, 4], rfl⟩ (fun x y => x + y) ∧
      Vec.addRefVal (⟨[1, 2], rfl⟩ : Vec 2 Int) ⟨[3, 4], rfl⟩ (fun x y => x + y) =
        Vec.add ⟨[1, 2], rfl⟩ ⟨[3, 4], rfl⟩ (fun x y => x + y) ∧
      Vec.addRefRef (⟨[1, 2], rfl⟩ : Vec 2 Int) ⟨[3, 4], rfl⟩ (fun x y => x + y) =
        Vec.add ⟨[1, 2], rfl⟩ ⟨[3, 4], rfl⟩ (fun x y => x + y) :=
  add_ownership_combinations_agree (fun x y => x + y) ⟨[1, 2], rfl⟩ ⟨[3, 4], rfl⟩

/-- C2: the claim fails on the source.  Only the dimension-2 `Deref` and
`DerefMut` run the size assertion; the dimension-3 and dimension-4
implementations perform the reinterpretation unconditionally, with no
check.  Evaluated at mismatched sizes (3 versus 999): the dimension-2
projection aborts (`none`), while the dimension-3 and dimension-4
projections, both `Deref` and `DerefMut`, still proceed. -/
theorem vec3_vec4_deref_skip_size_check :
    vec2Deref 3 999 (⟨[1, 2], rfl⟩ : Vec 2 Int) = none ∧
      vec2DerefMut 3 999 (⟨[1, 2], rfl⟩ : Vec 2 Int) = none ∧
      vec3Deref 3 999 (⟨[1, 2, 3], rfl⟩ : Vec 3 Int) =
        some (Window3.ofVec ⟨[1, 2, 3], rfl⟩) ∧
      vec3DerefMut 3 999 (⟨[1, 2, 3], rfl⟩ : Vec 3 Int) =
        some (Window3.ofVec ⟨[1, 2, 3], rfl⟩) ∧
      vec4Deref 3 999 (⟨[1, 2, 3, 4], rfl⟩ : Vec 4 Int) =
        some (Window4.ofVec ⟨[1, 2, 3, 4], rfl⟩) ∧
      vec4DerefMut 3 999 (⟨[1, 2, 3, 4], rfl⟩ : Vec 4 Int) =
        some (Window4.ofVec ⟨[1, 2, 3, 4], rfl⟩) :=
  ⟨rfl, rfl, rfl, rfl, rfl, rfl⟩

/-- C3: for dimension at least 1, the dot product equals the spec's
left-to-right fold of the ascending-index product list (each pair
multiplied first, products reduced by addition in ascending index
order), and it returns a value. -/
theorem dot_is_ascending_fold (mul : T → U → V) (add : V → V → V)
    (a : Vec D T) (b : Vec D U) (h : 1 ≤ D) :
    Vec.dot a b mul add = foldAscending add (dotProducts a b mul) ∧
      (Vec.dot a b mul add).isSome := by
  refine ⟨dot_eq_fold_products a b mul add, ?_⟩
  rw [dot_eq_fold_products a b mul add]
  have hlen : (dotProducts a b mul).length = D := by simp [dotProducts]
  cases hd : dotProducts a b mul with
  | nil => rw [hd] at hlen; simp at hlen; omega
  | cons x xs => simp [foldAscending]

/-- C3 witness: `Vec3(1,2,3).dot(Vec3(4,5,6))` matches the spec fold and
evaluates to 32. -/
theorem dot_is_ascending_fold_example :
    1 ≤ 3 ∧
      Vec.dot (⟨[1, 2, 3], rfl⟩ : Vec 3 Int) (⟨[4, 5, 6], rfl⟩ : Vec 3 Int)
          (fun x y => x * y) (fun x y => x + y) =
        foldAscending (fun x y : Int => x + y)
          (dotProducts (⟨[1, 2, 3], rfl⟩ : Vec 3 Int) ⟨[4, 5, 6], rfl⟩
            (fun x y => x * y)) ∧
      Vec.dot (⟨[1, 2, 3], rfl⟩ : Vec 3 Int) (⟨[4, 5, 6], rfl⟩ : Vec 3 Int)
          (fun x y => x * y) (fun x y => x + y) = some 32 :=
  ⟨by decide,
    (dot_is_ascending_fold (fun x y => x * y) (fun x y => x + y)
      ⟨[1, 2, 3], rfl⟩ ⟨[4, 5, 6], rfl⟩ (by decide)).1,
    by decide⟩

/-- C4: `combine(a, b, f)` produces the vector whose element list is the
ascending-index table of `f(a[i], b[i])` (so index `i` of the result
comes from index `i` of the inputs, in order), and whose element at each
in-bounds index `i` is `f(a[i], b[i])`; the result has dimension `D` by
the type of `Vec.combine`. -/
theorem combine_elementwise (f : T → U → V) (a : Vec D T) (b : Vec D U) :
    (a.combine b f).data = List.ofFn (fun i : Fin D => f (a.get i) (b.get i)) ∧
      ∀ i : Fin D, (a.combine b f).get i = f (a.get i) (b.get i) :=
  ⟨Vec.combine_data_eq_ofFn a b f, fun i => Vec.combine_get a b f i⟩

/-- C4 witness: `combine` at a concrete pair, checked at index 1 and as
a whole list. -/
theorem combine_elementwise_example :
    (Vec.combine (⟨[1, 2], rfl⟩ : Vec 2 Int) (⟨[3, 4], rfl⟩ : Vec 2 Int)
        (fun x y => x + y)).data =
      List.ofFn (fun i : Fin 2 =>
        (⟨[1, 2], rfl⟩ : Vec 2 Int).get i + (⟨[3, 4], rfl⟩ : Vec 2 Int).get i) ∧
      (Vec.combine (⟨[1, 2], rfl⟩ : Vec 2 Int) (⟨[3, 4], rfl⟩ : Vec 2 Int)
        (fun x y => x + y)).get (1 : Fin 2) = 6 :=
  ⟨(combine_elementwise (fun x y => x + y) (⟨[1, 2], rfl⟩ : Vec 2 Int)
      (⟨[3, 4], rfl⟩ : Vec 2 Int)).1,
    ((combine_elementwise (fun x y => x + y) (⟨[1, 2], rfl⟩ : Vec 2 Int)
      (⟨[3, 4], rfl⟩ : Vec 2 Int)).2 (1 : Fin 2)).trans (by decide)⟩

/-- C5: the named fields of the reinterpreted views read the same
storage as the positional indices: for dimension 4, x, y, z, w are
indices 0, 1, 2, 3; for dimension 3, x, y, z are 0, 1, 2; for
dimension 2, x, y are 0, 1. -/
theorem named_fields_match_indices (v2 : Vec 2 T) (v3 : Vec 3 T)
    (v4 : Vec 4 T) :
    (v4.index 0 = some (Window4.ofVec v4).x ∧
      v4.index 1 = some (Window4.ofVec v4).y ∧
      v4.index 2 = some (Window4.ofVec v4).z ∧
      v4.index 3 = some (Window4.ofVec v4).w) ∧
    (v3.index 0 = some (Window3.ofVec v3).x ∧
      v3.index 1 = some (Window3.ofVec v3).y ∧
      v3.index 2 = some (Window3.ofVec v3).z) ∧
    (v2.index 0 = some (Window2.ofVec v2).x ∧
      v2.index 1 = some (Window2.ofVec v2).y) :=
  ⟨⟨Vec.index_eq_get v4 0, Vec.index_eq_get v4 1, Vec.index_eq_get v4 2,
      Vec.index_eq_get v4 3⟩,
    ⟨Vec.index_eq_get v3 0, Vec.index_eq_get v3 1, Vec.index_eq_get v3 2⟩,
    ⟨Vec.index_eq_get v2 0, Vec.index_eq_get v2 1⟩⟩

/-- C5 witness: the correspondence at `Vec4(1,2,3,4)` (with concrete
3- and 2-dimensional companions). -/
theorem named_fields_match_indices_example :
    Vec.index (⟨[1, 2, 3, 4], rfl⟩ : Vec 4 Int) 0 =
        some (Window4.ofVec (⟨[1, 2, 3, 4], rfl⟩ : Vec 4 Int)).x ∧
      Vec.index (⟨[1, 2, 3, 4], rfl⟩ : Vec 4 Int) 3 =
        some (Window4.ofVec (⟨[1, 2, 3, 4], rfl⟩ : Vec 4 Int)).w ∧
      Vec.index (⟨[1, 2, 3, 4], rfl⟩ : Vec 4 Int) 3 = some 4 :=
  ⟨(named_fields_match_indices ⟨[9, 9], rfl⟩ ⟨[9, 9, 9], rfl⟩
      ⟨[1, 2, 3, 4], rfl⟩).1.1,
    (named_fields_match_indices ⟨[9, 9], rfl⟩ ⟨[9, 9, 9], rfl⟩
      ⟨[1, 2, 3, 4], rfl⟩).1.2.2.2,
    by decide⟩

/-- C6: provided the element in-place addition agrees with the element
addition, `a += b` (the `combine_assign` loop) leaves the receiver's
elements equal to those of `a + b` computed from the value of `a`
before the operation. -/
theorem add_assign_agrees_with_add (f g : T → U → T)
    (hg : ∀ x y, g x y = f x y) (a : Vec D T) (b : Vec D U) :
    Vec.addAssign a b g = some (Vec.add a b f).data := by
  show combineAssignLoop g a.data b.data = some (Vec.add a b f).data
  rw [combineAssignLoop_eq_zipMap g a.data b.data (by rw [a.hlen, b.hlen])]
  show some ((a.data.zip b.data).map (fun p => g p.1 p.2)) = _
  simp [hg, Vec.add, Vec.combine]

/-- C6 witness: `a += b` at a concrete integer pair produces the
elements of `a + b`, namely `[4, 6]`. -/
theorem add_assign_agrees_with_add_example :
    (∀ x y : Int, x + y = x + y) ∧
      Vec.addAssign (⟨[1, 2], rfl⟩ : Vec 2 Int) (⟨[3, 4], rfl⟩ : Vec 2 Int)
          (fun x y => x + y) =
        some (Vec.add (⟨[1, 2], rfl⟩ : Vec 2 Int) (⟨[3, 4], rfl⟩ : Vec 2 Int)
          (fun x y => x + y)).data ∧
      Vec.addAssign (⟨[1, 2], rfl⟩ : Vec 2 Int) (⟨[3, 4], rfl⟩ : Vec 2 Int)
          (fun x y => x + y) = some [4, 6] :=
  ⟨fun _ _ => rfl,
    add_assign_agrees_with_add (fun x y => x + y) (fun x y => x + y)
      (fun _ _ => rfl) ⟨[1, 2], rfl⟩ ⟨[3, 4], rfl⟩,
    by decide⟩

/-- C7: matrix addition (which delegates to row-vector addition) is
entrywise: `(A+B)[r][c] = A[r][c] + B[r][c]` at every in-bounds row and
column index. -/
theorem mat_add_entrywise (f : T → U → V) (A : Mat R C T) (B : Mat R C U)
    (i : Fin R) (j : Fin C) :
    (Mat.add A B f).index2 i.val j.val = some (f (A.get i j) (B.get i j)) := by
  rw [Mat.index2_eq_get (Mat.add A B f) i j, Mat.add_get A B f i j]

/-- C7 witness: entrywise addition at entry (1, 0) of concrete 2 by 2
integer matrices, evaluating to 33. -/
theorem mat_add_entrywise_example :
    (Mat.add (⟨[⟨[1, 2], rfl⟩, ⟨[3, 4], rfl⟩], rfl⟩ : Mat 2 2 Int)
        (⟨[⟨[10, 20], rfl⟩, ⟨[30, 40], rfl⟩], rfl⟩ : Mat 2 2 Int)
        (fun x y => x + y)).index2 1 0 = some 33 :=
  (mat_add_entrywise (fun x y => x + y)
    (⟨[⟨[1, 2], rfl⟩, ⟨[3, 4], rfl⟩], rfl⟩ : Mat 2 2 Int)
    (⟨[⟨[10, 20], rfl⟩, ⟨[30, 40], rfl⟩], rfl⟩ : Mat 2 2 Int) 1 0).trans
    (by decide)

/-- C8: positional indexing at the dimension `D` (one past the last
valid index), or at any larger index, returns no value: it is the
bounds-check failure, never a clamped or wrapped access. -/
theorem index_out_of_bounds_none (v : Vec D T) (i : Nat) (h : D ≤ i) :
    v.index i = none := by
  show v.data[i]? = none
  exact List.getElem?_eq_none (by rw [v.hlen]; exact h)

/-- C8 witness: indexing a 2-dimensional vector at index 2 yields
nothing. -/
theorem index_out_of_bounds_none_example :
    2 ≤ 2 ∧ Vec.index (⟨[10, 20], rfl⟩ : Vec 2 Int) 2 = none :=
  ⟨by decide, index_out_of_bounds_none (⟨[10, 20], rfl⟩ : Vec 2 Int) 2 (by decide)⟩

/-- C9: whenever the element divide cancels the element multiply by the
scalar `k` (the exact-equality contract of the element type, satisfied
by exact integer and rational types for non-zero `k`), the vector
round-trip `(v * k) / k` returns `v` exactly. -/
theorem mul_div_scalar_roundtrip (k : U) (mul : T → U → V) (dv : V → U → T)
    (hcancel : ∀ x, dv (mul x k) k = x) (v : Vec D T) :
    Vec.divScalar (Vec.mulScalar v k mul) k dv = v := by
  apply Vec.eq_of_data_eq
  show (v.data.map (fun x => mul x k)).map (fun y => dv y k) = v.data
  rw [List.map_map]
  have hid : ((fun y => dv y k) ∘ fun x => mul x k) = fun x => x :=
    funext (fun x => hcancel x)
  rw [hid]
  simp

/-- C9 witness: over the rationals with the non-zero scalar 2, the
cancellation holds for every element, and the round-trip fixes a
concrete vector. -/
theorem mul_div_scalar_roundtrip_example :
    (∀ x : Rat, x * 2 / 2 = x) ∧
      Vec.divScalar (Vec.mulScalar (⟨[3, -5], rfl⟩ : Vec 2 Rat) 2
          (fun a b => a * b)) 2 (fun a b => a / b) =
        (⟨[3, -5], rfl⟩ : Vec 2 Rat) :=
  have h : ∀ x : Rat, x * 2 / 2 = x := fun x =>
    mul_div_cancel_right₀ x (by norm_num)
  ⟨h, mul_div_scalar_roundtrip 2 (fun a b => a * b) (fun a b => a / b) h
    ⟨[3, -5], rfl⟩⟩

/-- C10: the conversions between a plain fixed-length array (a list of
provable length `D`) and a vector are mutually inverse: array to vector
to array is the identity, and vector to array to vector is the
identity. -/
theorem array_vec_roundtrip (x : { l : List T // l.length = D })
    (v : Vec D T) :
    Vec.toArray (Vec.fromArray x) = x ∧ Vec.fromArray (Vec.toArray v) = v :=
  ⟨rfl, rfl⟩

/-- C10 witness: the round-trips at concrete integer data. -/
theorem array_vec_roundtrip_example :
    Vec.toArray (Vec.fromArray
        (⟨[1, 2, 3], rfl⟩ : { l : List Int // l.length = 3 })) =
      ⟨[1, 2, 3], rfl⟩ ∧
    Vec.fromArray (Vec.toArray (⟨[7, 8], rfl⟩ : Vec 2 Int)) = ⟨[7, 8], rfl⟩ :=
  ⟨(array_vec_roundtrip (⟨[1, 2, 3], rfl⟩ : { l : List Int // l.length = 3 })
      (⟨[0, 0, 0], rfl⟩ : Vec 3 Int)).1,
    (array_vec_roundtrip (⟨[7, 8], rfl⟩ : { l : List Int // l.length = 2 })
      (⟨[7, 8], rfl⟩ : Vec 2 Int)).2⟩

end Isochro
